import Mathlib

/-!
Shallow embedding of the segment-timeline reconstruction pipeline of the
`gojiplus/speech` repository, together with theorems settling the frozen
claims about it.

Source files embedded here:
* `src/audio_mixer.py` — `AudioMixer.mix` (timeline assembly);
* `speech_clarity_enhancer_local.py` — `SpeechClarityEnhancer.combine_audio`;
* `src/text_processor.py` — `TextProcessor.process` (segment cleaning);
* `src/speech_synthesizer.py` — `PiperTTSSynthesizer.synthesize`;
* `enhanced_speech_tool.py` — `EnhancedSpeechTool.process` (orchestrator)
  and its title sanitization.

Modelling conventions:
* Python floats (segment times in seconds) are modelled as rationals `ℚ`;
  pydub audio durations are carried in milliseconds, also as `ℚ` (pydub's
  rounding of fractional milliseconds to whole frames is below the
  granularity of every claim).
* A pydub `AudioSegment` is a finite sequence of audio material; we model
  it as a list of chunks, a silence chunk carrying its duration or an
  opaque non-silent chunk (`tone`) carrying an identifier and a duration.
  `AudioSegment.silent(duration=0)` and an empty list are the same asset
  (both contain no frames), which is how the code's initial accumulator
  and its `if silence_duration > 0` guard are reflected.
* Python's `str.strip()` / `str.split()` are re-implemented over character
  lists (`pyStrip`, `wordCount`); Python's ASCII view of `\w` is
  `Char.isAlphanum` plus underscore.
* Fallible external collaborators (Piper synthesis, pydub file loading,
  the pipeline stages seen by the orchestrator) are modelled as explicit
  oracle parameters returning `Option`/`Except`, the standard shallow
  embedding of dependency-injected effects.
-/

namespace Speech

/-- One chunk of audio material: a run of silence or an opaque non-silent
chunk, each with a duration in milliseconds. -/
inductive Chunk where
  | silence (ms : ℚ)
  | tone (id : ℕ) (ms : ℚ)
deriving DecidableEq, Repr

/-- A pydub `AudioSegment` value: a finite concatenation of chunks. -/
abbrev Audio := List Chunk

/-- Duration in milliseconds of one chunk. -/
def Chunk.durMs : Chunk → ℚ
  | .silence ms => ms
  | .tone _ ms => ms

/-- Pydub `len(audio)`: total duration in milliseconds. -/
def durationMs (a : Audio) : ℚ := (a.map Chunk.durMs).sum

/-- Total duration in seconds (`len(audio) / 1000` in the source). -/
def durationSec (a : Audio) : ℚ := durationMs a / 1000

/-- Model of `AudioSegment.silent(duration=ms)` as appended by the mixer: the code
guards the append with `if silence_duration > 0`, so a non-positive
duration contributes nothing. -/
def silentAudio (ms : ℚ) : Audio := if 0 < ms then [Chunk.silence ms] else []

/-- Python `str.strip()` over a character list. -/
def stripList (cs : List Char) : List Char :=
  ((cs.dropWhile Char.isWhitespace).reverse.dropWhile Char.isWhitespace).reverse

/-- Python `str.strip()`. -/
def pyStrip (s : String) : String := (stripList s.toList).asString

/-- Helper for `wordCount`: counts maximal non-whitespace runs, the flag
records whether the previous character was inside a word. -/
def countWords : List Char → Bool → ℕ
  | [], _ => 0
  | c :: rest, inWord =>
    if c.isWhitespace then countWords rest false
    else (if inWord then 0 else 1) + countWords rest true

/-- Python `len(s.split())`: number of whitespace-separated words. -/
def wordCount (s : String) : ℕ := countWords s.toList false

/-- A transcription segment: `{"text": ..., "start": ..., "end": ...}`
(`end` is spelled `stop` because `end` is a Lean keyword). Times are in
seconds. -/
structure Segment where
  text : String
  start : ℚ
  stop : ℚ
deriving DecidableEq, Repr

/-- A segment as consumed by `AudioMixer.mix`: its original `start`/`end`
times plus the outcome of obtaining its audio.  `audio = none` models both
a falsy `audio_file` entry and a failing `AudioSegment.from_file` (the
code skips the segment in either case); `audio = some a` models a
successful load yielding asset `a`.  The dict-key defaults on lines
62/69 of audio_mixer.py (`get("start", last_end_time)`,
`get("end", start + len(audio)/1000)`) never fire for the synthesizer's
output records, which always carry both keys, so both times are modelled
as present. -/
structure SynthSeg where
  audio : Option Audio
  start : ℚ
  stop : ℚ
deriving DecidableEq, Repr

/-- Output record of `PiperTTSSynthesizer.synthesize`: the stripped text,
the originating segment's `start`/`end`, and the index used to derive the
`segment_{i:04d}.wav` audio-file path. -/
structure SynthOut where
  text : String
  start : ℚ
  stop : ℚ
  audioIndex : ℕ
deriving DecidableEq, Repr

/-! ### `TextProcessor.process` (src/text_processor.py, lines 47-89)

The per-segment text transformation (the composition of
`_remove_disfluencies` and `_simplify_language` selected by the
constructor flags) is abstracted as the `cleaner : String → String`
parameter; every claim about this component quantifies over the cleaner. -/

/-- Body of `TextProcessor.process`, lines 63-80: apply the cleaner, keep the
segment iff the cleaned text does not strip to empty, retaining
`start`/`end`. -/
def processSegs (cleaner : String → String) (segs : List Segment) : List Segment :=
  segs.filterMap fun s =>
    let t := cleaner s.text
    if pyStrip t = "" then none else some ⟨t, s.start, s.stop⟩

/-- Lines 83-84: `sum(len(s["text"].split()) for s in segs)`. -/
def totalWords (segs : List Segment) : ℕ := (segs.map fun s => wordCount s.text).sum

/-- Line 85: `100 * (original - processed) / original if original > 0 else 0`. -/
def reductionPercent (cleaner : String → String) (segs : List Segment) : ℚ :=
  let ow := totalWords segs
  let pw := totalWords (processSegs cleaner segs)
  if 0 < ow then (100 : ℚ) * ((ow : ℚ) - (pw : ℚ)) / (ow : ℚ) else 0

/-! ### `PiperTTSSynthesizer.synthesize` (src/speech_synthesizer.py, lines 83-146)

The external Piper invocation `_synthesize_text` is abstracted as the
oracle `ok : ℕ → String → Bool`, telling for each enumeration index and
stripped text whether synthesis succeeds (`False` models the caught
per-segment exception of lines 127-130).  The trailing copy loop
(lines 136-144) re-points `audio_file` paths one-to-one in order and is
identity on everything the claims mention. -/

/-- The `for i, segment in enumerate(segments)` loop of lines 102-130:
`i` counts every input segment; empty-after-strip segments are skipped,
failing syntheses are dropped, successes are appended in order. -/
def synthLoop (ok : ℕ → String → Bool) : ℕ → List Segment → List SynthOut
  | _, [] => []
  | i, s :: rest =>
    let t := pyStrip s.text
    if t = "" then synthLoop ok (i + 1) rest
    else if ok i t then ⟨t, s.start, s.stop, i⟩ :: synthLoop ok (i + 1) rest
    else synthLoop ok (i + 1) rest

/-- Entry point `PiperTTSSynthesizer.synthesize`. -/
def synthesize (ok : ℕ → String → Bool) (segs : List Segment) : List SynthOut :=
  synthLoop ok 0 segs

/-! ### `AudioMixer.mix` (src/audio_mixer.py, lines 29-96) -/

/-- The mutable loop state of `mix`: the `combined` accumulator and the
`last_end_time` cursor (seconds). -/
structure MixState where
  combined : Audio
  lastEnd : ℚ
deriving DecidableEq, Repr

/-- One iteration of the `for i, segment in enumerate(segments)` loop of
lines 50-76.  A segment whose audio is unavailable (`none`) is skipped
entirely: nothing is appended and the cursor is untouched (the cursor
update on line 69 sits after the load on line 58, inside the `try`).
Otherwise, under `maintain_timing`, silence of
`max(0, (start - last_end_time) * 1000)` milliseconds is appended when
positive, the cursor is set to the segment's original `end`, and the
audio is appended unchanged; without `maintain_timing` the audio alone is
appended. -/
def mixStep (maintainTiming : Bool) (st : MixState) (seg : SynthSeg) : MixState :=
  match seg.audio with
  | none => st
  | some a =>
    if maintainTiming then
      { combined := st.combined ++ silentAudio (max 0 ((seg.start - st.lastEnd) * 1000)) ++ a
        lastEnd := seg.stop }
    else
      { combined := st.combined ++ a, lastEnd := st.lastEnd }

/-- Embedding of `AudioMixer.mix`: fold the loop over the segments starting from an
empty accumulator (`AudioSegment.silent(duration=0)`) and cursor `0`,
returning the combined asset (the export to file on lines 83-93 is the
caller's persistence of this value). The `maintain_timing` flag defaults
to `True` as in the source. -/
def mix (segs : List SynthSeg) (maintainTiming : Bool := true) : Audio :=
  (segs.foldl (mixStep maintainTiming) ⟨[], 0⟩).combined

/-- One iteration of the loop of `SpeechClarityEnhancer.combine_audio`
(speech_clarity_enhancer_local.py, lines 257-275): same computation as
`mixStep true`, with the load failure caught on line 274 skipping the
segment before any append or cursor update. -/
def combineStep (st : MixState) (seg : SynthSeg) : MixState :=
  match seg.audio with
  | none => st
  | some a =>
    { combined := st.combined ++ silentAudio (max 0 ((seg.start - st.lastEnd) * 1000)) ++ a
      lastEnd := seg.stop }

/-- Embedding of `SpeechClarityEnhancer.combine_audio` (lines 248-285), up to the
export: `AudioSegment.empty()` accumulator, cursor `last_end = 0`. -/
def combineAudio (segs : List SynthSeg) : Audio :=
  (segs.foldl combineStep ⟨[], 0⟩).combined

/-! ### The spec's reference assembly algorithm

Transcribed from the claim's (and spec §4.3's) pseudocode, to be compared
with the source's `mix`: segments are triples (audio asset, original
start, original end); silence of `max(0, start - last_end_time)` seconds
is prepended, the audio appended unchanged, and the cursor set to the
original end. -/

/-- One step of the reference algorithm on a (audio, start, end) triple. -/
def assembleSpecStep (st : MixState) (t : Audio × ℚ × ℚ) : MixState :=
  { combined := st.combined ++ silentAudio (max 0 (t.2.1 - st.lastEnd) * 1000) ++ t.1
    lastEnd := t.2.2 }

/-- The reference algorithm of the claim: cursor starts at `0`. -/
def assembleSpec (ts : List (Audio × ℚ × ℚ)) : Audio :=
  (ts.foldl assembleSpecStep ⟨[], 0⟩).combined

/-- View a (audio asset, original start, original end) triple as a mixer
segment whose audio is present. -/
def toSynthSeg (t : Audio × ℚ × ℚ) : SynthSeg := ⟨some t.1, t.2.1, t.2.2⟩

/-! ### Title sanitization

`enhanced_speech_tool.py` line 106 and `speech_clarity_enhancer_local.py`
line 278, identically:
`re.sub(r'[^\w\s-]', '', title).strip().replace(' ', '_')`. -/

/-- Python's `\w` on ASCII text: alphanumeric or underscore. -/
def pyIsWordChar (c : Char) : Bool := c.isAlphanum || c = '_'

/-- The character class kept by `re.sub(r'[^\w\s-]', '', ·)`. -/
def keptBySub (c : Char) : Bool := pyIsWordChar c || c.isWhitespace || c = '-'

/-- Code sanitizer `re.sub(r'[^\w\s-]', '', title).strip().replace(' ', '_')`: the
single-character-class substitution with the empty string is a character
filter, `replace(' ', '_')` rewrites each space character individually. -/
def sanitizeTitle (title : String) : String :=
  ((stripList (title.toList.filter keptBySub)).map
    fun c => if c = ' ' then '_' else c).asString

/-- Replace each maximal whitespace run by a single underscore (used by
the spec-worded sanitizer below). -/
def collapseWsRuns : List Char → List Char
  | [] => []
  | [c] => [if c.isWhitespace then '_' else c]
  | c :: d :: rest =>
    if c.isWhitespace && d.isWhitespace then collapseWsRuns (d :: rest)
    else (if c.isWhitespace then '_' else c) :: collapseWsRuns (d :: rest)

/-- The sanitizer exactly as the claim words it: delete every character
that is not alphanumeric, whitespace, or hyphen; strip; replace each
internal whitespace run with a single underscore. -/
def sanitizeSpecClaim (title : String) : String :=
  (collapseWsRuns (stripList (title.toList.filter
    fun c => c.isAlphanum || c.isWhitespace || c = '-'))).asString

/-- The sanitizer as the amended claim words it: delete every character
that is not alphanumeric, underscore, whitespace, or hyphen; strip; then
replace each space character individually with an underscore (a run of
`n` spaces becomes `n` underscores; other whitespace is kept). -/
def sanitizeAmended (title : String) : String :=
  ((stripList (title.toList.filter
      fun c => c.isAlphanum || c = '_' || c.isWhitespace || c = '-')).map
    fun c => if c = ' ' then '_' else c).asString

/-! ### `EnhancedSpeechTool.process` (enhanced_speech_tool.py, lines 63-125)

The orchestrator sequences the five stages inside one `try` block whose
handler logs and re-raises (`raise`, line 125) the caught exception
unchanged.  The stages are injected as `Except`-valued collaborators (the
per-stage data are opaque handles, `ℕ`); file writes are recorded as
`Artifact` values tagged with their destination (`temp_dir` vs
`output_dir`), each write taken as atomic. -/

/-- The five pipeline stages named by the claim. -/
inductive Stage where
  | extraction | transcription | cleaning | synthesis | mixing
deriving DecidableEq, Repr

/-- A file write performed during a run: destination directory flag
(`true` = the persistent `output_dir`, `false` = the scratch `temp_dir`)
and file name. -/
structure Artifact where
  toOutputDir : Bool
  name : String
deriving DecidableEq, Repr

/-- The injected stage collaborators: each may fail with an error value
(the Python exception, carried as a `String`). -/
structure ToolEnv where
  extract : Except String (ℕ × String)
  transcribe : ℕ → Except String ℕ
  cleanStage : ℕ → Except String ℕ
  synthStage : ℕ → Except String ℕ
  mixStage : ℕ → Except String Audio
deriving Inhabited

/-- Embedding of `EnhancedSpeechTool.process`: runs the stages in order, recording the
writes of lines 85-88 (raw transcript, temp), 95-98 (processed
transcript, temp), 83-93 of the mixer (the `_enhanced.mp3` artifact,
output dir) and 113-116 (the `_transcript.txt` sidecar, output dir).  On
the first failing stage the handler of lines 121-125 re-raises the
underlying error unchanged; writes made so far remain. -/
def processTool (env : ToolEnv) : Except String String × List Artifact :=
  match env.extract with
  | .error e => (.error e, [])
  | .ok (audio, title) =>
    match env.transcribe audio with
    | .error e => (.error e, [])
    | .ok tr =>
      let w1 : List Artifact := [⟨false, "raw_transcript.json"⟩]
      match env.cleanStage tr with
      | .error e => (.error e, w1)
      | .ok segs =>
        let w2 := w1 ++ [⟨false, "processed_transcript.json"⟩]
        match env.synthStage segs with
        | .error e => (.error e, w2)
        | .ok synth =>
          match env.mixStage synth with
          | .error e => (.error e, w2)
          | .ok _ =>
            let safe := sanitizeTitle title
            (.ok (safe ++ "_enhanced.mp3"),
              w2 ++ [⟨true, safe ++ "_enhanced.mp3"⟩, ⟨true, safe ++ "_transcript.txt"⟩])

/-- The first failing stage of a run together with its underlying error,
read off the same stage sequence; `none` when every stage succeeds. -/
def firstFailure (env : ToolEnv) : Option (Stage × String) :=
  match env.extract with
  | .error e => some (.extraction, e)
  | .ok (audio, _) =>
    match env.transcribe audio with
    | .error e => some (.transcription, e)
    | .ok tr =>
      match env.cleanStage tr with
      | .error e => some (.cleaning, e)
      | .ok segs =>
        match env.synthStage segs with
        | .error e => some (.synthesis, e)
        | .ok synth =>
          match env.mixStage synth with
          | .error e => some (.mixing, e)
          | .ok _ => none

/-- The claim's "the error surfaced to the caller carries the name of the
failing stage": the failing stage is recoverable from the surfaced error
value alone, uniformly over runs. -/
def stageAttachedToError : Prop :=
  ∃ f : String → Stage, ∀ (env : ToolEnv) (s : Stage) (e : String),
    firstFailure env = some (s, e) → f e = s

/-! ## Helper lemmas -/

/-- Duration is additive under concatenation. -/
theorem durationMs_append (a b : Audio) :
    durationMs (a ++ b) = durationMs a + durationMs b := by
  simp [durationMs]

/-- Scaling by the positive ms-per-second factor commutes with the
clamping at zero. -/
theorem max_zero_mul_thousand (g : ℚ) : max 0 g * 1000 = max 0 (g * 1000) := by
  rcases le_total g 0 with h | h
  · rw [max_eq_left h, max_eq_left (by nlinarith), zero_mul]
  · rw [max_eq_right h, max_eq_right (by nlinarith)]

/-- A step of `mix` on a segment whose audio is unavailable leaves the
state untouched. -/
theorem mixStep_none (mt : Bool) (st : MixState) (s : SynthSeg)
    (h : s.audio = none) : mixStep mt st s = st := by
  simp [mixStep, h]

/-- The `maintain_timing=False` fold appends exactly the loadable audio
assets back-to-back after the accumulator, leaving the cursor alone. -/
theorem foldl_mixStep_false (segs : List SynthSeg) :
    ∀ st : MixState,
      segs.foldl (mixStep false) st
        = ⟨st.combined ++ (segs.filterMap SynthSeg.audio).flatten, st.lastEnd⟩ := by
  induction segs with
  | nil => intro st; simp
  | cons s rest ih =>
    intro st
    cases h : s.audio with
    | none => simp [List.foldl_cons, mixStep, h, ih]
    | some a => simp [List.foldl_cons, mixStep, h, ih]

/-- One `maintain_timing=True` mixer step on a loaded segment agrees with
one step of the spec's reference algorithm on the corresponding triple. -/
theorem mixStep_true_eq_specStep (st : MixState) (t : Audio × ℚ × ℚ) :
    mixStep true st (toSynthSeg t) = assembleSpecStep st t := by
  simp only [mixStep, toSynthSeg, assembleSpecStep, if_pos]
  rw [max_zero_mul_thousand]

/-- The mixer fold and the reference fold agree from every state. -/
theorem foldl_mix_eq_spec (ts : List (Audio × ℚ × ℚ)) :
    ∀ st : MixState,
      (ts.map toSynthSeg).foldl (mixStep true) st = ts.foldl assembleSpecStep st := by
  induction ts with
  | nil => intro st; rfl
  | cons t rest ih =>
    intro st
    rw [List.map_cons, List.foldl_cons, List.foldl_cons,
      mixStep_true_eq_specStep, ih]

/-- `TextProcessor.process` written as map-then-filter: clean every
segment, then keep exactly those whose cleaned text does not strip to
empty. -/
theorem processSegs_eq_map_filter (cleaner : String → String) (segs : List Segment) :
    processSegs cleaner segs
      = ((segs.map fun s => Segment.mk (cleaner s.text) s.start s.stop).filter
          fun s => !(pyStrip s.text == "")) := by
  induction segs with
  | nil => rfl
  | cons s rest ih =>
    by_cases h : pyStrip (cleaner s.text) = ""
    · simp [processSegs, List.filterMap_cons, List.filter_cons, h] at ih ⊢
      exact ih
    · simp [processSegs, List.filterMap_cons, List.filter_cons, h] at ih ⊢
      exact ih

/-! ## Claims -/

/-- C4 counterexample: on the title `"_a  b"` the code keeps the
underscore (Python's `\w` includes it) and turns the two-space run into
two underscores (`replace(' ', '_')` is per-character), giving
`"_a__b"`, while the claim's rule gives `"a_b"`. -/
theorem c4_sanitize_counterexample :
    sanitizeTitle "_a  b" ≠ sanitizeSpecClaim "_a  b" := by decide

/-- C4 amended: for every title string, the sanitized output-artifact
name is obtained by deleting every character that is not alphanumeric,
underscore, whitespace, or hyphen, then stripping leading and trailing
whitespace, then replacing each space character individually with an
underscore (a run of `n` spaces becomes `n` underscores; other
whitespace is kept). -/
theorem c4_sanitize_amended (title : String) :
    sanitizeTitle title = sanitizeAmended title := by
  have hk : keptBySub = fun c : Char =>
      (c.isAlphanum || c = '_' || c.isWhitespace || c = '-') := by
    funext c
    simp [keptBySub, pyIsWordChar, Bool.or_assoc]
  unfold sanitizeTitle sanitizeAmended
  rw [hk]

/-- C2: for every mixer state and every segment whose audio loads, the
`maintain_timing` step prepends silence of exactly
`max(0, (start - last_end_time) * 1000)` milliseconds, a quantity that is
never negative; when `start < last_end_time` it prepends no silence at
all and appends the audio unchanged (back-to-back, no trimming).  The
step is a total function, so no error is ever raised. -/
theorem c2_no_negative_silence (st : MixState) (s : SynthSeg) (a : Audio)
    (h : s.audio = some a) :
    (mixStep true st s).combined
        = st.combined ++ silentAudio (max 0 ((s.start - st.lastEnd) * 1000)) ++ a
    ∧ 0 ≤ max 0 ((s.start - st.lastEnd) * 1000)
    ∧ (s.start < st.lastEnd → (mixStep true st s).combined = st.combined ++ a) := by
  refine ⟨by simp [mixStep, h], le_max_left _ _, fun hlt => ?_⟩
  have hneg : (s.start - st.lastEnd) * 1000 < 0 :=
    mul_neg_of_neg_of_pos (by linarith) (by norm_num)
  have hmax : max 0 ((s.start - st.lastEnd) * 1000) = 0 := max_eq_left hneg.le
  simp [mixStep, h, hmax, silentAudio]

/-- C2 witness: a concrete overlapping segment (`start = 3` before the
cursor at `5`) is appended with no silence and no trimming. -/
theorem c2_no_negative_silence_witness :
    (mixStep true ⟨[], 5⟩ ⟨some [Chunk.tone 7 1000], 3, 6⟩).combined
      = [] ++ [Chunk.tone 7 1000] :=
  (c2_no_negative_silence ⟨[], 5⟩ ⟨some [Chunk.tone 7 1000], 3, 6⟩
    [Chunk.tone 7 1000] rfl).2.2 (by norm_num)

/-- C7: a segment whose audio asset is missing or fails to load
contributes nothing to the assembler: the fold over any surrounding
context from any state — in particular the whole `mix` run — is the same
as if the segment were absent, so neither the output audio nor the
`last_end_time` cursor is affected and the remaining segments are
processed as before. -/
theorem c7_skip_unloadable_segment (mt : Bool) (pre suf : List SynthSeg)
    (s : SynthSeg) (h : s.audio = none) :
    (∀ st : MixState,
        (pre ++ s :: suf).foldl (mixStep mt) st = (pre ++ suf).foldl (mixStep mt) st)
    ∧ mix (pre ++ s :: suf) mt = mix (pre ++ suf) mt := by
  have key : ∀ st : MixState,
      (pre ++ s :: suf).foldl (mixStep mt) st = (pre ++ suf).foldl (mixStep mt) st := by
    intro st
    rw [List.foldl_append, List.foldl_append, List.foldl_cons, mixStep_none mt _ s h]
  exact ⟨key, by unfold mix; rw [key]⟩

/-- C7 witness: dropping a concrete unloadable middle segment leaves a
concrete mix unchanged. -/
theorem c7_skip_unloadable_segment_witness :
    mix [⟨some [Chunk.tone 0 2000], 0, 2⟩, ⟨none, 3, 4⟩, ⟨some [Chunk.tone 1 1000], 5, 6⟩] true
      = mix [⟨some [Chunk.tone 0 2000], 0, 2⟩, ⟨some [Chunk.tone 1 1000], 5, 6⟩] true :=
  (c7_skip_unloadable_segment true [⟨some [Chunk.tone 0 2000], 0, 2⟩] [⟨some [Chunk.tone 1 1000], 5, 6⟩]
    ⟨none, 3, 4⟩ rfl).2

/-- C9: on empty input both core operations succeed: mixing the empty
segment sequence (with either timing flag) yields the empty,
zero-duration asset, and cleaning the empty sequence (with any cleaner)
yields the empty sequence with a reported reduction of `0`. -/
theorem c9_empty_input :
    (∀ mt : Bool, mix [] mt = [] ∧ durationSec (mix [] mt) = 0)
    ∧ (∀ cleaner : String → String,
        processSegs cleaner [] = [] ∧ reductionPercent cleaner [] = 0) := by
  refine ⟨fun mt => ⟨rfl, ?_⟩, fun cleaner => ⟨rfl, rfl⟩⟩
  simp [mix, durationSec, durationMs]

/-- C10: `mix` takes a `maintain_timing` flag defaulting to `true`; with
`maintain_timing=False` it appends each loadable segment's audio
back-to-back in input order with no silence inserted, and the result is
invariant under arbitrary rewriting of every segment's `start`/`end`
timestamps. -/
theorem c10_no_timing_concatenation (segs : List SynthSeg) :
    mix segs false = (segs.filterMap SynthSeg.audio).flatten
    ∧ (∀ f g : SynthSeg → ℚ,
        mix (segs.map fun s => SynthSeg.mk s.audio (f s) (g s)) false = mix segs false)
    ∧ mix segs = mix segs true := by
  refine ⟨by rw [mix, foldl_mixStep_false]; simp, fun f g => ?_, rfl⟩
  rw [mix, mix, foldl_mixStep_false, foldl_mixStep_false]
  simp only [MixState.mk.injEq, List.nil_append, List.filterMap_map]
  have : (SynthSeg.audio ∘ fun s : SynthSeg => SynthSeg.mk s.audio (f s) (g s))
      = SynthSeg.audio := by
    funext s; rfl
  rw [this]

/-- C6: for every cleaner and input sequence, `TextProcessor.process`
drops exactly those segments whose cleaned text is empty after stripping
whitespace, emits every other segment with the cleaned text and the
original `start`/`end` unchanged, and reports a word-count reduction of
`100 * (original - result) / original`, defined as `0` when the original
word count is `0`. -/
theorem c6_cleaner_drops_empty (cleaner : String → String) (segs : List Segment) :
    processSegs cleaner segs
        = ((segs.map fun s => Segment.mk (cleaner s.text) s.start s.stop).filter
            fun s => !(pyStrip s.text == ""))
    ∧ (totalWords segs = 0 → reductionPercent cleaner segs = 0)
    ∧ (0 < totalWords segs → reductionPercent cleaner segs
          = 100 * ((totalWords segs : ℚ) - (totalWords (processSegs cleaner segs) : ℚ))
              / (totalWords segs : ℚ)) := by
  refine ⟨processSegs_eq_map_filter cleaner segs, fun h0 => ?_, fun hpos => ?_⟩
  · simp [reductionPercent, h0]
  · simp [reductionPercent, hpos]

/-- C6 witness: a concrete cleaner halving a two-word segment reports the
stated reduction formula. -/
theorem c6_cleaner_drops_empty_witness :
    0 < totalWords [⟨"a b", 0, 1⟩]
    ∧ reductionPercent (fun _ => "a") [⟨"a b", 0, 1⟩]
        = 100 * ((totalWords [⟨"a b", 0, 1⟩] : ℚ)
            - (totalWords (processSegs (fun _ => "a") [⟨"a b", 0, 1⟩]) : ℚ))
          / (totalWords [⟨"a b", 0, 1⟩] : ℚ) :=
  ⟨by decide, (c6_cleaner_drops_empty (fun _ => "a") [⟨"a b", 0, 1⟩]).2.2 (by decide)⟩

/-- C8: if the cleaner is the identity function, cleaning returns the
input segments unchanged except that segments whose text strips to empty
are removed. -/
theorem c8_identity_cleaner (cleaner : String → String) (h : ∀ x, cleaner x = x)
    (segs : List Segment) :
    processSegs cleaner segs = segs.filter fun s => !(pyStrip s.text == "") := by
  rw [processSegs_eq_map_filter]
  have hmap : (fun s : Segment => Segment.mk (cleaner s.text) s.start s.stop)
      = fun s : Segment => s := by
    funext s
    rw [h]
  rw [hmap]
  simp

/-- C8 witness: the identity cleaner on a concrete sequence keeps the
non-empty segment unchanged and removes the whitespace-only one. -/
theorem c8_identity_cleaner_witness :
    processSegs (fun x => x) [⟨"hi", 0, 1⟩, ⟨"  ", 1, 2⟩] = [⟨"hi", 0, 1⟩] := by
  rw [c8_identity_cleaner (fun x => x) (fun _ => rfl) [⟨"hi", 0, 1⟩, ⟨"  ", 1, 2⟩]]
  decide

/-- C1: the source's assembler implements the claim's reference
algorithm — for every sequence of (audio asset, original start, original
end) triples, `AudioMixer.mix` with timing maintained equals the fold
that prepends `max(0, start - last_end_time)` of silence, appends the
audio unchanged, and moves the cursor to the original `end`; the
`combine_audio` variant computes the same function; and in Scenario A
(segments `[0,2]` and `[3,4]` whose synthesized audio lasts 2s and 1s)
the output is audio1, then 1s of silence, then audio2, total 4s. -/
theorem c1_timeline_assembly :
    (∀ ts : List (Audio × ℚ × ℚ), mix (ts.map toSynthSeg) true = assembleSpec ts)
    ∧ (∀ segs : List SynthSeg, combineAudio segs = mix segs true)
    ∧ (∀ a1 a2 : Audio,
        mix [⟨some a1, 0, 2⟩, ⟨some a2, 3, 4⟩] true
            = a1 ++ [Chunk.silence 1000] ++ a2
        ∧ (durationSec a1 = 2 → durationSec a2 = 1 →
            durationSec (mix [⟨some a1, 0, 2⟩, ⟨some a2, 3, 4⟩] true) = 4)) := by
  refine ⟨fun ts => ?_, fun segs => ?_, fun a1 a2 => ⟨?_, fun h1 h2 => ?_⟩⟩
  · unfold mix assembleSpec
    rw [foldl_mix_eq_spec]
  · unfold combineAudio mix
    have hstep : combineStep = mixStep true := by
      funext st seg
      cases h : seg.audio <;> simp [combineStep, mixStep, h]
    rw [hstep]
  · show (mixStep true (mixStep true ⟨[], 0⟩ ⟨some a1, 0, 2⟩) ⟨some a2, 3, 4⟩).combined = _
    simp only [mixStep, silentAudio]
    norm_num
  · have hmix : mix [⟨some a1, 0, 2⟩, ⟨some a2, 3, 4⟩] true
        = a1 ++ [Chunk.silence 1000] ++ a2 := by
      show (mixStep true (mixStep true ⟨[], 0⟩ ⟨some a1, 0, 2⟩) ⟨some a2, 3, 4⟩).combined = _
      simp only [mixStep, silentAudio]
      norm_num
    rw [hmix]
    have d1 : durationMs a1 = 2000 := by
      unfold durationSec at h1
      field_simp at h1
      linarith
    have d2 : durationMs a2 = 1000 := by
      unfold durationSec at h2
      field_simp at h2
      linarith
    unfold durationSec
    rw [durationMs_append, durationMs_append, d1, d2]
    norm_num [durationMs, Chunk.durMs]

/-- Every record produced by the synthesis loop carries an enumeration
index at least the loop's starting index. -/
theorem synthLoop_index_ge (ok : ℕ → String → Bool) :
    ∀ (segs : List Segment) (n : ℕ) (o : SynthOut),
      o ∈ synthLoop ok n segs → n ≤ o.audioIndex := by
  intro segs
  induction segs with
  | nil =>
    intro n o h
    simp [synthLoop] at h
  | cons s rest ih =>
    intro n o h
    simp only [synthLoop] at h
    split_ifs at h with h1 h2
    · exact le_trans (Nat.le_succ n) (ih (n + 1) o h)
    · rcases List.mem_cons.mp h with rfl | hmem
      · exact Nat.le_refl n
      · exact le_trans (Nat.le_succ n) (ih (n + 1) o hmem)
    · exact le_trans (Nat.le_succ n) (ih (n + 1) o h)

/-- The synthesis loop produces a record for position `i` exactly when
that segment's stripped text is non-empty and its synthesis succeeds;
failures and empty texts elsewhere in the sequence have no influence. -/
theorem synthLoop_mem_iff (ok : ℕ → String → Bool) :
    ∀ (segs : List Segment) (n i : ℕ) (hi : i < segs.length),
      ((∃ o ∈ synthLoop ok n segs, o.audioIndex = n + i) ↔
        (pyStrip (segs.get ⟨i, hi⟩).text ≠ ""
          ∧ ok (n + i) (pyStrip (segs.get ⟨i, hi⟩).text) = true)) := by
  intro segs
  induction segs with
  | nil =>
    intro n i hi
    exact absurd hi (by simp)
  | cons s rest ih =>
    intro n i hi
    cases i with
    | zero =>
      have hget : (s :: rest).get ⟨0, hi⟩ = s := rfl
      rw [hget, Nat.add_zero]
      simp only [synthLoop]
      split_ifs with h1 h2
      · constructor
        · rintro ⟨o, ho, hidx⟩
          have := synthLoop_index_ge ok rest (n + 1) o ho
          omega
        · rintro ⟨hne, -⟩
          exact absurd h1 hne
      · constructor
        · intro _
          exact ⟨h1, h2⟩
        · intro _
          exact ⟨⟨pyStrip s.text, s.start, s.stop, n⟩, List.mem_cons_self _ _, rfl⟩
      · constructor
        · rintro ⟨o, ho, hidx⟩
          have := synthLoop_index_ge ok rest (n + 1) o ho
          omega
        · rintro ⟨-, hok⟩
          exact absurd hok h2
    | succ j =>
      have hj : j < rest.length := Nat.lt_of_succ_lt_succ hi
      have harith : n + (j + 1) = (n + 1) + j := by omega
      have key := ih (n + 1) j hj
      have hget : (s :: rest).get ⟨j + 1, hi⟩ = rest.get ⟨j, hj⟩ := rfl
      rw [hget, harith]
      rw [← key]
      simp only [synthLoop]
      split_ifs with h1 h2
      · rfl
      · constructor
        · rintro ⟨o, ho, hidx⟩
          rcases List.mem_cons.mp ho with rfl | hmem
          · exfalso
            simp only at hidx
            omega
          · exact ⟨o, hmem, hidx⟩
        · rintro ⟨o, ho, hidx⟩
          exact ⟨o, List.mem_cons_of_mem _ ho, hidx⟩
      · rfl

/-- The loop's output, projected to (index, start, end), is a sublist of
the enumerated input projected the same way. -/
theorem synthLoop_sublist (ok : ℕ → String → Bool) :
    ∀ (segs : List Segment) (n : ℕ),
      ((synthLoop ok n segs).map fun o => (o.audioIndex, o.start, o.stop)).Sublist
        ((List.enumFrom n segs).map fun p => (p.1, p.2.start, p.2.stop)) := by
  intro segs
  induction segs with
  | nil =>
    intro n
    simp [synthLoop]
  | cons s rest ih =>
    intro n
    have henum : List.enumFrom n (s :: rest) = (n, s) :: List.enumFrom (n + 1) rest := rfl
    rw [henum, List.map_cons]
    simp only [synthLoop]
    split_ifs with h1 h2
    · exact (ih (n + 1)).cons _
    · rw [List.map_cons]
      exact (ih (n + 1)).cons₂ _
    · exact (ih (n + 1)).cons _

/-- C3: the synthesizer's output is a subsequence of the input by index
in the same relative order, each output record retaining the originating
segment's `start` and `end`; and a record for position `i` exists exactly
when that segment's own stripped text is non-empty and its own synthesis
succeeds, so one failing segment is dropped while every other segment is
still processed — a single failure never aborts the run. -/
theorem c3_synthesis_subsequence (ok : ℕ → String → Bool) (segs : List Segment) :
    (((synthesize ok segs).map fun o => (o.audioIndex, o.start, o.stop)).Sublist
        (segs.enum.map fun p => (p.1, p.2.start, p.2.stop)))
    ∧ ∀ (i : ℕ) (hi : i < segs.length),
        ((∃ o ∈ synthesize ok segs, o.audioIndex = i) ↔
          (pyStrip (segs.get ⟨i, hi⟩).text ≠ ""
            ∧ ok i (pyStrip (segs.get ⟨i, hi⟩).text) = true)) := by
  constructor
  · exact synthLoop_sublist ok segs 0
  · intro i hi
    have := synthLoop_mem_iff ok segs 0 i hi
    rwa [Nat.zero_add] at this

/-- C3 witness: with synthesis failing on index 0 and segment 1 empty,
segment 2 is still synthesized. -/
theorem c3_synthesis_subsequence_witness :
    ∃ o ∈ synthesize (fun i _ => decide (i ≠ 0)) [⟨"a", 0, 1⟩, ⟨"  ", 1, 2⟩, ⟨"b", 2, 3⟩],
      o.audioIndex = 2 :=
  ((c3_synthesis_subsequence (fun i _ => decide (i ≠ 0))
      [⟨"a", 0, 1⟩, ⟨"  ", 1, 2⟩, ⟨"b", 2, 3⟩]).2 2 (by decide)).mpr
    ⟨by decide, by decide⟩

/-- C5 counterexample: the handler on line 125 of
`enhanced_speech_tool.py` re-raises the caught exception unchanged, so
the surfaced error does not carry the failing stage's name — two runs
failing at different stages (extraction vs transcription) with the same
underlying cause `"boom"` surface identical errors, so no reading of the
surfaced error can recover the stage. -/
theorem c5_stage_name_counterexample : ¬ stageAttachedToError := by
  rintro ⟨f, hf⟩
  have h1 : f "boom" = Stage.extraction :=
    hf { extract := .error "boom", transcribe := fun _ => .ok 0,
         cleanStage := fun _ => .ok 0, synthStage := fun _ => .ok 0,
         mixStage := fun _ => .ok [] } Stage.extraction "boom" rfl
  have h2 : f "boom" = Stage.transcription :=
    hf { extract := .ok (0, "t"), transcribe := fun _ => .error "boom",
         cleanStage := fun _ => .ok 0, synthStage := fun _ => .ok 0,
         mixStage := fun _ => .ok [] } Stage.transcription "boom" rfl
  rw [h1] at h2
  exact Stage.noConfusion h2

/-- C5 amended: if any pipeline stage raises an unhandled error, the
orchestrator's run aborts re-raising the underlying error to the caller
unchanged (the stage name appears only in the log, not on the error),
and nothing has been persisted to the output directory — only scratch
files in the temporary directory may exist. -/
theorem c5_abort_no_partial_output (env : ToolEnv) (s : Stage) (e : String)
    (h : firstFailure env = some (s, e)) :
    (processTool env).1 = Except.error e
    ∧ (processTool env).2.filter (fun a => a.toOutputDir) = [] := by
  cases h1 : env.extract with
  | error e0 =>
    simp only [firstFailure, h1] at h
    obtain ⟨-, rfl⟩ := Prod.mk.injEq .. ▸ Option.some.injEq .. ▸ h
    simp [processTool, h1]
  | ok v =>
    obtain ⟨audio, title⟩ := v
    cases h2 : env.transcribe audio with
    | error e0 =>
      simp only [firstFailure, h1, h2] at h
      obtain ⟨-, rfl⟩ := Prod.mk.injEq .. ▸ Option.some.injEq .. ▸ h
      simp [processTool, h1, h2, List.filter]
    | ok tr =>
      cases h3 : env.cleanStage tr with
      | error e0 =>
        simp only [firstFailure, h1, h2, h3] at h
        obtain ⟨-, rfl⟩ := Prod.mk.injEq .. ▸ Option.some.injEq .. ▸ h
        simp [processTool, h1, h2, h3, List.filter]
      | ok segs =>
        cases h4 : env.synthStage segs with
        | error e0 =>
          simp only [firstFailure, h1, h2, h3, h4] at h
          obtain ⟨-, rfl⟩ := Prod.mk.injEq .. ▸ Option.some.injEq .. ▸ h
          simp [processTool, h1, h2, h3, h4, List.filter]
        | ok synth =>
          cases h5 : env.mixStage synth with
          | error e0 =>
            simp only [firstFailure, h1, h2, h3, h4, h5] at h
            obtain ⟨-, rfl⟩ := Prod.mk.injEq .. ▸ Option.some.injEq .. ▸ h
            simp [processTool, h1, h2, h3, h4, h5, List.filter]
          | ok a =>
            exfalso
            simp [firstFailure, h1, h2, h3, h4, h5] at h

/-- C5 witness: a run whose extraction fails with `"boom"` surfaces
exactly that error and persists nothing to the output directory. -/
theorem c5_abort_no_partial_output_witness :
    (processTool { extract := .error "boom", transcribe := fun _ => .ok 0,
                   cleanStage := fun _ => .ok 0, synthStage := fun _ => .ok 0,
                   mixStage := fun _ => .ok [] }).1 = Except.error "boom"
    ∧ (processTool { extract := .error "boom", transcribe := fun _ => .ok 0,
                     cleanStage := fun _ => .ok 0, synthStage := fun _ => .ok 0,
                     mixStage := fun _ => .ok [] }).2.filter (fun a => a.toOutputDir) = [] :=
  c5_abort_no_partial_output _ Stage.extraction "boom" rfl

/-- C1 witness: Scenario A at concrete assets of duration 2000ms and
1000ms. -/
theorem c1_timeline_assembly_witness :
    mix [⟨some [Chunk.tone 0 2000], 0, 2⟩, ⟨some [Chunk.tone 1 1000], 3, 4⟩] true
        = [Chunk.tone 0 2000] ++ [Chunk.silence 1000] ++ [Chunk.tone 1 1000]
    ∧ durationSec (mix [⟨some [Chunk.tone 0 2000], 0, 2⟩, ⟨some [Chunk.tone 1 1000], 3, 4⟩] true)
        = 4 :=
  ⟨(c1_timeline_assembly.2.2 [Chunk.tone 0 2000] [Chunk.tone 1 1000]).1,
   (c1_timeline_assembly.2.2 [Chunk.tone 0 2000] [Chunk.tone 1 1000]).2
     (by norm_num [durationSec, durationMs, Chunk.durMs])
     (by norm_num [durationSec, durationMs, Chunk.durMs])⟩

end Speech
